import Mathlib

/-!
Verification of the snapshot capture and reference-resolution subsystem of the
playwright-mcp repository.

The repository sources available under `src/` contain the tool handlers
(`src/tools/snapshot.ts`, `src/tools/cookies.ts`, the unnamed navigate / highlight /
html-snippet / inspector tool files) and the integration tests (`tests/basic.spec.ts`).
The core capture/allocation/resolution code (`Context.refLocator`,
`captureAriaSnapshot`, the snapshot store) is not among those files, so the core is
modelled here from the specification, with its observable behaviour pinned by the
expectations in `tests/basic.spec.ts` (token grammar `s<gen>e<ord>` /
`f<frame>s<gen>e<ord>`, element ordinals restarting at 3 in every frame, frame
ordinals dense from 1, `[selected]` flags, the YAML-like outline).  Tool handlers
that do appear under `src/` are embedded directly from their source.
-/

/-- Modelled from the spec: the decomposition of a reference token (§3, §6) — the
repository's token construction code is not under `src/`.  A token is either a
top-level-frame element reference (generation, element ordinal) or a nested-frame
reference (frame ordinal, generation, element ordinal). -/
inductive RefToken where
  | top (gen ord : Nat)
  | framed (frame gen ord : Nat)
deriving DecidableEq, Repr

/-- Generation component of a token. -/
def tokGen : RefToken → Nat
  | .top g _ => g
  | .framed _ g _ => g

/-- Element-ordinal component of a token. -/
def tokElem : RefToken → Nat
  | .top _ o => o
  | .framed _ _ o => o

/-- Frame-ordinal component of a token (`none` for the top-level frame). -/
def tokFrame : RefToken → Option Nat
  | .top _ _ => none
  | .framed k _ _ => some k

/-- Tokens actually issued by the system have positive components: generations start
at 1, element ordinals at the fixed base 3, frame ordinals at 1. -/
def ValidTok : RefToken → Prop
  | .top g o => 1 ≤ g ∧ 1 ≤ o
  | .framed k g o => 1 ≤ k ∧ 1 ≤ g ∧ 1 ≤ o

instance : DecidablePred ValidTok := fun t => by
  cases t <;> (unfold ValidTok; infer_instance)

/-- Decimal digit characters of `n`, most significant first. -/
def natChars (n : Nat) : List Char := ((Nat.digits 10 n).reverse).map Nat.digitChar

/-- Modelled from the spec: the textual rendering of a token (§6), in the exact format
pinned by the tests (`s1e3`, `f1s1e3`, `f2s1e3`): `s<gen>e<ord>` for a top-level
element, `f<frame>s<gen>e<ord>` for a nested-frame element. -/
def renderTok : RefToken → List Char
  | .top g o => 's' :: (natChars g ++ 'e' :: natChars o)
  | .framed k g o => 'f' :: (natChars k ++ 's' :: (natChars g ++ 'e' :: natChars o))

/-- Numeric value of a digit character. -/
def charVal (c : Char) : Nat := c.toNat - 48

/-- Numeric value of a most-significant-first digit string. -/
def digitsToNat (ds : List Char) : Nat := Nat.ofDigits 10 ((ds.map charVal).reverse)

/-- Read a maximal (nonempty) digit run from the front of the input. -/
def readNat (l : List Char) : Option Nat × List Char :=
  let ds := l.takeWhile Char.isDigit
  if ds.isEmpty then (none, l)
  else (some (digitsToNat ds), l.dropWhile Char.isDigit)

/-- Modelled from the spec: the Reference Resolver's token parser (§4.5) — parses a
token string into its (frame-ordinal-or-top-level, generation, element-ordinal)
decomposition, rejecting anything that does not match the grammar. -/
def parseTok (l : List Char) : Option RefToken :=
  match l with
  | 'f' :: rest =>
    match readNat rest with
    | (some k, 's' :: r2) =>
      match readNat r2 with
      | (some g, 'e' :: r3) =>
        match readNat r3 with
        | (some o, []) => some (.framed k g o)
        | _ => none
      | _ => none
    | _ => none
  | 's' :: rest =>
    match readNat rest with
    | (some g, 'e' :: r2) =>
      match readNat r2 with
      | (some o, []) => some (.top g o)
      | _ => none
    | _ => none
  | _ => none

theorem digitChar_isDigit : ∀ d : Nat, d < 10 → (Nat.digitChar d).isDigit = true := by
  decide

theorem charVal_digitChar : ∀ d : Nat, d < 10 → charVal (Nat.digitChar d) = d := by
  decide

theorem natChars_all_digits {n : Nat} {c : Char} (h : c ∈ natChars n) :
    c.isDigit = true := by
  simp only [natChars, List.mem_map, List.mem_reverse] at h
  obtain ⟨d, hd, rfl⟩ := h
  exact digitChar_isDigit d (Nat.digits_lt_base (by norm_num) hd)

theorem natChars_ne_nil {n : Nat} (h : 1 ≤ n) : natChars n ≠ [] := by
  simp only [natChars, ne_eq, List.map_eq_nil_iff, List.reverse_eq_nil_iff]
  simpa [Nat.digits_ne_nil_iff_ne_zero] using Nat.one_le_iff_ne_zero.mp h

theorem digitsToNat_natChars (n : Nat) : digitsToNat (natChars n) = n := by
  unfold digitsToNat natChars
  rw [List.map_map]
  have hcongr : ((Nat.digits 10 n).reverse).map (charVal ∘ Nat.digitChar)
      = ((Nat.digits 10 n).reverse).map id := by
    apply List.map_congr_left
    intro d hd
    rw [List.mem_reverse] at hd
    exact charVal_digitChar d (Nat.digits_lt_base (by norm_num) hd)
  rw [hcongr, List.map_id, List.reverse_reverse, Nat.ofDigits_digits]

/-- The first character of the remainder after a rendered number is not a digit. -/
def HeadNotDigit : List Char → Prop
  | [] => True
  | c :: _ => c.isDigit = false

theorem takeWhile_digits_append (ds r : List Char) (h1 : ∀ c ∈ ds, c.isDigit = true)
    (h2 : HeadNotDigit r) :
    (ds ++ r).takeWhile Char.isDigit = ds ∧ (ds ++ r).dropWhile Char.isDigit = r := by
  induction ds with
  | nil =>
    cases r with
    | nil => simp
    | cons c cs =>
      simp only [HeadNotDigit] at h2
      simp [List.takeWhile_cons, List.dropWhile_cons, h2]
  | cons c cs ih =>
    have hc : c.isDigit = true := h1 c (by simp)
    have hrest := ih (fun x hx => h1 x (by simp [hx]))
    simp [List.takeWhile_cons, List.dropWhile_cons, hc, hrest.1, hrest.2]

theorem readNat_exact {n : Nat} (hn : 1 ≤ n) (r : List Char) (h2 : HeadNotDigit r) :
    readNat (natChars n ++ r) = (some n, r) := by
  have hall : ∀ c ∈ natChars n, c.isDigit = true := fun c hc => natChars_all_digits hc
  have h := takeWhile_digits_append (natChars n) r hall h2
  have hne : (natChars n).isEmpty = false := by
    cases hcn : natChars n with
    | nil => exact absurd hcn (natChars_ne_nil hn)
    | cons a l => rfl
  simp [readNat, h.1, h.2, hne, digitsToNat_natChars]

theorem parseTok_renderTok (t : RefToken) (h : ValidTok t) :
    parseTok (renderTok t) = some t := by
  cases t with
  | top g o =>
    obtain ⟨hg, ho⟩ := h
    have h1 := readNat_exact hg ('e' :: natChars o) (by simp [HeadNotDigit])
    have h2 := readNat_exact ho ([] : List Char) trivial
    rw [List.append_nil] at h2
    simp [renderTok, parseTok, h1, h2]
  | framed k g o =>
    obtain ⟨hk, hg, ho⟩ := h
    have h1 := readNat_exact hk ('s' :: (natChars g ++ 'e' :: natChars o))
      (by simp [HeadNotDigit])
    have h2 := readNat_exact hg ('e' :: natChars o) (by simp [HeadNotDigit])
    have h3 := readNat_exact ho ([] : List Char) trivial
    rw [List.append_nil] at h3
    simp [renderTok, parseTok, h1, h2, h3]

theorem renderTok_inj {t1 t2 : RefToken} (h1 : ValidTok t1) (h2 : ValidTok t2)
    (he : renderTok t1 = renderTok t2) : t1 = t2 := by
  have ha := parseTok_renderTok t1 h1
  rw [he, parseTok_renderTok t2 h2] at ha
  exact (Option.some_inj.mp ha).symm

mutual
/-- Modelled from the spec: the per-frame accessibility input of the Reference
Allocator (§3, §4.2) — the Frame Accessor and frame-tree walker are not under `src/`.
An `AXNode.el` is an ordinary accessibility node (role, accessible name, selected
flag, ordered children); an `AXNode.host` is a frame-hosting element (e.g. an
`iframe`) whose hosted frame has the given visibility and root node list. -/
inductive AXNode where
  | el (role name : String) (selected : Bool) (children : AXList)
  | host (role name : String) (selected : Bool) (visible : Bool) (sub : AXList)
deriving DecidableEq
inductive AXList where
  | nil
  | cons (hd : AXNode) (tl : AXList)
deriving DecidableEq
end

mutual
/-- Modelled from the spec: the StitchedTree (§3) — one logical tree in which every
node carries its reference token and a child frame's nodes are spliced in as the
children of the node hosting that frame. -/
inductive SNode where
  | el (role name : String) (selected : Bool) (ref : RefToken) (children : SList)
deriving DecidableEq
inductive SList where
  | nil
  | cons (hd : SNode) (tl : SList)
deriving DecidableEq
end

/-- Role of a stitched node. -/
def roleOf : SNode → String
  | .el r _ _ _ _ => r

/-- Accessible name of a stitched node. -/
def nameOf : SNode → String
  | .el _ nm _ _ _ => nm

/-- Selected flag of a stitched node. -/
def selOf : SNode → Bool
  | .el _ _ s _ _ => s

/-- Reference token of a stitched node. -/
def refOf : SNode → RefToken
  | .el _ _ _ t _ => t

/-- Children of a stitched node. -/
def childrenOf : SNode → SList
  | .el _ _ _ _ ch => ch

/-- The fixed base value at which element ordinals restart in every frame (§3
"restarting at a fixed base value for each frame"); the tests pin the base at 3
(`s1e3`, `f1s1e3`, `f2s1e3` are the first references of their frames). -/
def elemBase : Nat := 3

/-- Build the token for an element: with the owning frame's ordinal when inside a
nested frame, without one for the top-level frame. -/
def mkTok : Option Nat → Nat → Nat → RefToken
  | none, g, e => .top g e
  | some k, g, e => .framed k g e

/-- Result of allocating one node: the stitched node (if the node survives the
hidden-frame filter), the frame ordinals assigned during the step in discovery
order, and the updated element and frame counters. -/
structure AllocN where
  out : Option SNode
  frames : List Nat
  nextE : Nat
  nextF : Nat
deriving DecidableEq

/-- Result of allocating a node list. -/
structure AllocL where
  out : SList
  frames : List Nat
  nextE : Nat
  nextF : Nat
deriving DecidableEq

/-- Prepend an optional node. -/
def consOpt : Option SNode → SList → SList
  | none, l => l
  | some n, l => .cons n l

mutual
/-- Modelled from the spec: the Reference Allocator (§4.2) — not under `src/`.  One
depth-first pre-order traversal; `g` is the generation, `fo` the current frame's
ordinal (`none` for the top-level frame), `e` the frame-local element counter, `f`
the generation-global frame-ordinal counter.  A visible hosted frame is spliced as
the children of its hosting node and consumes the next frame ordinal with its own
element counter restarted at `elemBase`; a hidden frame is excluded together with
its hosting node and consumes nothing. -/
def allocNode (g : Nat) (fo : Option Nat) : AXNode → Nat → Nat → AllocN
  | AXNode.el r nm sel ch, e, f =>
    let t := allocList g fo ch (e + 1) f
    ⟨some (SNode.el r nm sel (mkTok fo g e) t.out), t.frames, t.nextE, t.nextF⟩
  | AXNode.host r nm sel vis sub, e, f =>
    if vis then
      let t := allocList g (some f) sub elemBase (f + 1)
      ⟨some (SNode.el r nm sel (mkTok fo g e) t.out), f :: t.frames, e + 1, t.nextF⟩
    else ⟨none, [], e, f⟩
def allocList (g : Nat) (fo : Option Nat) : AXList → Nat → Nat → AllocL
  | AXList.nil, e, f => ⟨SList.nil, [], e, f⟩
  | AXList.cons n l, e, f =>
    let a := allocNode g fo n e f
    let b := allocList g fo l a.nextE a.nextF
    ⟨consOpt a.out b.out, a.frames ++ b.frames, b.nextE, b.nextF⟩
end

mutual
/-- All stitched nodes of a tree in depth-first pre-order. -/
def nodesN : SNode → List SNode
  | SNode.el r nm sel t ch => SNode.el r nm sel t ch :: nodesL ch
def nodesL : SList → List SNode
  | SList.nil => []
  | SList.cons n l => nodesN n ++ nodesL l
end

/-- All reference tokens of a tree in depth-first pre-order. -/
def refsL (l : SList) : List RefToken := (nodesL l).map refOf

/-- Tokens of an optional node. -/
def refsOpt (o : Option SNode) : List RefToken :=
  match o with
  | none => []
  | some n => (nodesN n).map refOf

theorem nodesN_ne_nil (n : SNode) : nodesN n ≠ [] := by
  cases n with
  | el r nm sel t ch => simp [nodesN]

theorem refsL_cons (n : SNode) (l : SList) :
    refsL (SList.cons n l) = (nodesN n).map refOf ++ refsL l := by
  simp [refsL, nodesL]

theorem refsL_consOpt (o : Option SNode) (l : SList) :
    refsL (consOpt o l) = refsOpt o ++ refsL l := by
  cases o with
  | none => simp [consOpt, refsOpt]
  | some n => simp [consOpt, refsOpt, refsL_cons]

theorem tokGen_mkTok (fo : Option Nat) (g e : Nat) : tokGen (mkTok fo g e) = g := by
  cases fo <;> rfl

theorem tokElem_mkTok (fo : Option Nat) (g e : Nat) : tokElem (mkTok fo g e) = e := by
  cases fo <;> rfl

theorem tokFrame_mkTok (fo : Option Nat) (g e : Nat) : tokFrame (mkTok fo g e) = fo := by
  cases fo <;> rfl

theorem refsOpt_some_el (r nm : String) (sel : Bool) (tok : RefToken) (ch : SList) :
    refsOpt (some (SNode.el r nm sel tok ch)) = tok :: refsL ch := by
  simp [refsOpt, nodesN, refsL, refOf]

theorem range'_append_plain (s m n : Nat) :
    List.range' s m ++ List.range' (s + m) n = List.range' s (m + n) := by
  have h := List.range'_append s m n 1
  rw [Nat.one_mul] at h
  rw [h, Nat.add_comm]

theorem range'_glue {f a b : Nat} (h1 : f ≤ a) (h2 : a ≤ b) :
    List.range' f (a - f) ++ List.range' a (b - a) = List.range' f (b - f) := by
  have h := range'_append_plain f (a - f) (b - a)
  rw [show f + (a - f) = a from by omega] at h
  rw [h, show (a - f) + (b - a) = b - f from by omega]

theorem allocNode_el (g : Nat) (fo : Option Nat) (r nm : String) (sel : Bool)
    (ch : AXList) (e f : Nat) :
    allocNode g fo (AXNode.el r nm sel ch) e f =
      ⟨some (SNode.el r nm sel (mkTok fo g e) (allocList g fo ch (e + 1) f).out),
        (allocList g fo ch (e + 1) f).frames, (allocList g fo ch (e + 1) f).nextE,
        (allocList g fo ch (e + 1) f).nextF⟩ := by
  rw [allocNode]

theorem allocNode_host (g : Nat) (fo : Option Nat) (r nm : String) (sel vis : Bool)
    (sub : AXList) (e f : Nat) :
    allocNode g fo (AXNode.host r nm sel vis sub) e f =
      if vis then
        ⟨some (SNode.el r nm sel (mkTok fo g e)
            (allocList g (some f) sub elemBase (f + 1)).out),
          f :: (allocList g (some f) sub elemBase (f + 1)).frames, e + 1,
          (allocList g (some f) sub elemBase (f + 1)).nextF⟩
      else ⟨none, [], e, f⟩ := by
  rw [allocNode]

theorem allocList_nil (g : Nat) (fo : Option Nat) (e f : Nat) :
    allocList g fo AXList.nil e f = ⟨SList.nil, [], e, f⟩ := by
  rw [allocList]

theorem allocList_cons (g : Nat) (fo : Option Nat) (n : AXNode) (l : AXList)
    (e f : Nat) :
    allocList g fo (AXList.cons n l) e f =
      ⟨consOpt (allocNode g fo n e f).out
          (allocList g fo l (allocNode g fo n e f).nextE (allocNode g fo n e f).nextF).out,
        (allocNode g fo n e f).frames ++
          (allocList g fo l (allocNode g fo n e f).nextE (allocNode g fo n e f).nextF).frames,
        (allocList g fo l (allocNode g fo n e f).nextE (allocNode g fo n e f).nextF).nextE,
        (allocList g fo l (allocNode g fo n e f).nextE (allocNode g fo n e f).nextF).nextF⟩ := by
  rw [allocList]

/-- The allocator invariant: counters only grow; the frame ordinals assigned during
the traversal segment are exactly the contiguous block of counter values consumed, in
discovery order; every emitted token carries the generation, a positive element
ordinal, and either belongs to the current frame with an element ordinal in the
consumed block, or to a frame whose ordinal was assigned during the segment; and all
emitted tokens are pairwise distinct. -/
structure AllocInv (g : Nat) (fo : Option Nat) (e f : Nat) (toks : List RefToken)
    (nextE nextF : Nat) (frames : List Nat) : Prop where
  mono_e : e ≤ nextE
  mono_f : f ≤ nextF
  frames_eq : frames = List.range' f (nextF - f)
  tok_spec : ∀ tok ∈ toks, tokGen tok = g ∧ 1 ≤ tokElem tok ∧
    ((tokFrame tok = fo ∧ e ≤ tokElem tok ∧ tokElem tok < nextE) ∨
      (∃ k, tokFrame tok = some k ∧ f ≤ k ∧ k < nextF))
  nodup : toks.Nodup

theorem tok_ne_of_elem {t1 t2 : RefToken} (h : tokElem t1 ≠ tokElem t2) : t1 ≠ t2 :=
  fun he => h (by rw [he])

theorem tok_ne_of_frame {t1 t2 : RefToken} (h : tokFrame t1 ≠ tokFrame t2) : t1 ≠ t2 :=
  fun he => h (by rw [he])

theorem elemBase_pos : 1 ≤ elemBase := by norm_num [elemBase]


mutual
theorem allocNode_inv (g : Nat) :
    ∀ (n : AXNode) (fo : Option Nat) (e f : Nat), 1 ≤ e → (∀ k, fo = some k → k < f) →
      AllocInv g fo e f (refsOpt (allocNode g fo n e f).out)
        (allocNode g fo n e f).nextE (allocNode g fo n e f).nextF
        (allocNode g fo n e f).frames
  | AXNode.el r nm sel ch, fo, e, f, he, hfo => by
    obtain ⟨a1, a2, afr, ats, nda⟩ := allocList_inv g ch fo (e + 1) f (by omega) hfo
    rw [allocNode_el]
    dsimp only
    rw [refsOpt_some_el]
    refine ⟨by omega, a2, afr, ?_, ?_⟩
    · intro tok htok
      rcases List.mem_cons.mp htok with h | h
      · subst h
        refine ⟨tokGen_mkTok fo g e, by rw [tokElem_mkTok]; omega,
          Or.inl ⟨tokFrame_mkTok fo g e, by rw [tokElem_mkTok],
            by rw [tokElem_mkTok]; omega⟩⟩
      · obtain ⟨hg, hpos, hcase⟩ := ats tok h
        refine ⟨hg, hpos, ?_⟩
        rcases hcase with ⟨hf, hlo, hhi⟩ | ⟨k, hk, hlo, hhi⟩
        · exact Or.inl ⟨hf, by omega, hhi⟩
        · exact Or.inr ⟨k, hk, hlo, hhi⟩
    · rw [List.nodup_cons]
      refine ⟨?_, nda⟩
      intro hmem
      obtain ⟨_, _, hcase⟩ := ats _ hmem
      rcases hcase with ⟨hf, hlo, _⟩ | ⟨k, hk, hlo, _⟩
      · rw [tokElem_mkTok] at hlo; omega
      · rw [tokFrame_mkTok] at hk
        have := hfo k hk
        omega
  | AXNode.host r nm sel vis sub, fo, e, f, he, hfo => by
    cases vis with
    | false =>
      rw [allocNode_host, if_neg (by decide : ¬ (false = true))]
      exact ⟨le_refl e, le_refl f, by simp, by simp [refsOpt], by simp [refsOpt]⟩
    | true =>
      obtain ⟨b1, b2, bfr, bts, ndb⟩ := allocList_inv g sub (some f) elemBase (f + 1)
        elemBase_pos (fun k hk => by injection hk with h; omega)
      rw [allocNode_host, if_pos rfl]
      dsimp only
      rw [refsOpt_some_el]
      refine ⟨by omega, by omega, ?_, ?_, ?_⟩
      · rw [bfr, show (allocList g (some f) sub elemBase (f + 1)).nextF - f
            = ((allocList g (some f) sub elemBase (f + 1)).nextF - (f + 1)) + 1 from
            by omega]
        simp [List.range']
      · intro tok htok
        rcases List.mem_cons.mp htok with h | h
        · subst h
          refine ⟨tokGen_mkTok fo g e, by rw [tokElem_mkTok]; omega,
            Or.inl ⟨tokFrame_mkTok fo g e, by rw [tokElem_mkTok],
              by rw [tokElem_mkTok]; omega⟩⟩
        · obtain ⟨hg, hpos, hcase⟩ := bts tok h
          refine ⟨hg, hpos, Or.inr ?_⟩
          rcases hcase with ⟨hf, _, _⟩ | ⟨k, hk, hlo, hhi⟩
          · exact ⟨f, hf, le_refl f, by omega⟩
          · exact ⟨k, hk, by omega, hhi⟩
      · rw [List.nodup_cons]
        refine ⟨?_, ndb⟩
        intro hmem
        obtain ⟨_, _, hcase⟩ := bts _ hmem
        rcases hcase with ⟨hf, _, _⟩ | ⟨k, hk, _, _⟩
        · rw [tokFrame_mkTok] at hf
          have := hfo f hf
          omega
        · rw [tokFrame_mkTok] at hk
          have := hfo k hk
          omega
theorem allocList_inv (g : Nat) :
    ∀ (l : AXList) (fo : Option Nat) (e f : Nat), 1 ≤ e → (∀ k, fo = some k → k < f) →
      AllocInv g fo e f (refsL (allocList g fo l e f).out)
        (allocList g fo l e f).nextE (allocList g fo l e f).nextF
        (allocList g fo l e f).frames
  | AXList.nil, fo, e, f, he, hfo => by
    rw [allocList_nil]
    exact ⟨le_refl e, le_refl f, by simp, by simp [refsL, nodesL], by simp [refsL, nodesL]⟩
  | AXList.cons n l, fo, e, f, he, hfo => by
    obtain ⟨a1, a2, afr, ats, nda⟩ := allocNode_inv g n fo e f he hfo
    obtain ⟨b1, b2, bfr, bts, ndb⟩ := allocList_inv g l fo
      (allocNode g fo n e f).nextE (allocNode g fo n e f).nextF
      (by omega) (fun k hk => lt_of_lt_of_le (hfo k hk) a2)
    rw [allocList_cons]
    dsimp only
    rw [refsL_consOpt]
    refine ⟨by omega, by omega, ?_, ?_, ?_⟩
    · rw [afr, bfr]
      exact range'_glue a2 b2
    · intro tok htok
      rcases List.mem_append.mp htok with h | h
      · obtain ⟨hg, hpos, hcase⟩ := ats tok h
        refine ⟨hg, hpos, ?_⟩
        rcases hcase with ⟨hf, hlo, hhi⟩ | ⟨k, hk, hlo, hhi⟩
        · exact Or.inl ⟨hf, hlo, by omega⟩
        · exact Or.inr ⟨k, hk, hlo, by omega⟩
      · obtain ⟨hg, hpos, hcase⟩ := bts tok h
        refine ⟨hg, hpos, ?_⟩
        rcases hcase with ⟨hf, hlo, hhi⟩ | ⟨k, hk, hlo, hhi⟩
        · exact Or.inl ⟨hf, by omega, hhi⟩
        · exact Or.inr ⟨k, hk, by omega, hhi⟩
    · rw [List.nodup_append]
      refine ⟨nda, ndb, ?_⟩
      intro tok hta htb
      obtain ⟨_, _, hca⟩ := ats tok hta
      obtain ⟨_, _, hcb⟩ := bts tok htb
      rcases hca with ⟨hfa, hloa, hhia⟩ | ⟨k, hka, hloa, hhia⟩
      · rcases hcb with ⟨hfb, hlob, hhib⟩ | ⟨k', hkb, hlob, hhib⟩
        · omega
        · rw [hfa] at hkb
          have := hfo k' hkb
          omega
      · rcases hcb with ⟨hfb, hlob, hhib⟩ | ⟨k', hkb, hlob, hhib⟩
        · rw [hfb] at hka
          have := hfo k hka
          omega
        · rw [hka] at hkb
          have hkk : k = k' := by injection hkb
          omega
end

mutual
/-- Depth-first search for the node carrying a token, checking each node before its
children — the model of locating the element addressed by a parsed reference. -/
def findN (tok : RefToken) : SNode → Option SNode
  | SNode.el r nm sel t ch =>
    if t = tok then some (SNode.el r nm sel t ch) else findL tok ch
def findL (tok : RefToken) : SList → Option SNode
  | SList.nil => none
  | SList.cons n l =>
    match findN tok n with
    | some x => some x
    | none => findL tok l
end

mutual
theorem findN_none (tok : RefToken) :
    ∀ n : SNode, tok ∉ (nodesN n).map refOf → findN tok n = none
  | SNode.el r nm sel t ch, hmem => by
    rw [findN]
    rw [nodesN] at hmem
    simp only [List.map_cons, show refOf (SNode.el r nm sel t ch) = t from rfl,
      List.mem_cons, not_or] at hmem
    rw [if_neg (fun he => hmem.1 he.symm)]
    exact findL_none tok ch hmem.2
theorem findL_none (tok : RefToken) :
    ∀ l : SList, tok ∉ refsL l → findL tok l = none
  | SList.nil, _ => by rw [findL]
  | SList.cons n l, hmem => by
    rw [findL]
    rw [refsL, nodesL, List.map_append] at hmem
    simp only [List.mem_append, not_or] at hmem
    rw [findN_none tok n hmem.1, findL_none tok l hmem.2]
end

mutual
theorem findN_mem :
    ∀ (n : SNode) (x : SNode), x ∈ nodesN n → ((nodesN n).map refOf).Nodup →
      findN (refOf x) n = some x
  | SNode.el r nm sel t ch, x, hx, hnd => by
    rw [findN]
    rw [nodesN] at hx hnd
    simp only [List.map_cons, show refOf (SNode.el r nm sel t ch) = t from rfl] at hnd
    rw [List.nodup_cons] at hnd
    rcases List.mem_cons.mp hx with h | h
    · subst h
      simp [show refOf (SNode.el r nm sel t ch) = t from rfl]
    · have href : refOf x ∈ (nodesL ch).map refOf := List.mem_map_of_mem refOf h
      have hne : t ≠ refOf x := fun he => hnd.1 (by rw [he]; exact href)
      rw [if_neg hne]
      exact findL_mem ch x h hnd.2
theorem findL_mem :
    ∀ (l : SList) (x : SNode), x ∈ nodesL l → ((nodesL l).map refOf).Nodup →
      findL (refOf x) l = some x
  | SList.nil, x, hx, _ => absurd hx (by rw [nodesL]; exact List.not_mem_nil x)
  | SList.cons n l, x, hx, hnd => by
    rw [findL]
    rw [nodesL] at hx hnd
    rw [List.map_append, List.nodup_append] at hnd
    rcases List.mem_append.mp hx with h | h
    · rw [findN_mem n x h hnd.1]
    · have hnot : refOf x ∉ (nodesN n).map refOf := fun hin =>
        hnd.2.2 hin (List.mem_map_of_mem refOf h)
      rw [findN_none (refOf x) n hnot]
      exact findL_mem l x h hnd.2.1
end

/-- Modelled from the spec: the Reference Resolver's failure taxonomy (§4.5, §7). -/
inductive RErr where
  | staleGeneration
  | unknownFrame
  | danglingElement
  | malformedToken
deriving DecidableEq, Repr

/-- Modelled from the spec: a Snapshot Store entry (§4.4): the page's current
generation and current stitched tree, replaced wholesale on every commit. -/
structure StoreEntry where
  gen : Nat
  tree : SList
deriving DecidableEq

/-- Frame ordinals present in a stitched tree (the ordinals its tokens mention). -/
def frameOrdsOf (t : SList) : List Nat := (refsL t).filterMap tokFrame

/-- Modelled from the spec: one full-page capture (§4.2, §4.4): allocate the frame
tree under the given generation, with the element counter at its base and the frame
ordinal counter at 1. -/
def capture (g : Nat) (roots : AXList) : SList :=
  (allocList g none roots elemBase 1).out

/-- Modelled from the spec: Snapshot Store commit (§4.4): increment the page's
generation counter and replace the stored tree wholesale with a fresh capture. -/
def commit (st : StoreEntry) (roots : AXList) : StoreEntry :=
  ⟨st.gen + 1, capture (st.gen + 1) roots⟩

/-- Iterated re-capture: `n` successive commits. -/
def commitN (st : StoreEntry) (roots : AXList) : Nat → StoreEntry
  | 0 => st
  | Nat.succ m => commit (commitN st roots m) roots

/-- Modelled from the spec: the Reference Resolver (§4.5): parse the token
(`MalformedToken` if it does not match the grammar), fail with `StaleGeneration` if
the parsed generation differs from the store's current generation, with
`UnknownFrame` if the frame ordinal is absent from the current stitched tree, with
`DanglingElement` if no node carries the reference, and otherwise return the node. -/
def resolve (st : StoreEntry) (s : List Char) : Except RErr SNode :=
  match parseTok s with
  | none => .error .malformedToken
  | some tok =>
    if tokGen tok = st.gen then
      match tokFrame tok with
      | some k =>
        if k ∈ frameOrdsOf st.tree then
          match findL tok st.tree with
          | some n => .ok n
          | none => .error .danglingElement
        else .error .unknownFrame
      | none =>
        match findL tok st.tree with
        | some n => .ok n
        | none => .error .danglingElement
    else .error .staleGeneration

theorem capture_inv (g : Nat) (roots : AXList) :
    AllocInv g none elemBase 1 (refsL (capture g roots))
      (allocList g none roots elemBase 1).nextE
      (allocList g none roots elemBase 1).nextF
      (allocList g none roots elemBase 1).frames :=
  allocList_inv g roots none elemBase 1 elemBase_pos (fun k hk => by cases hk)

theorem capture_tok_gen {g : Nat} {roots : AXList} {tok : RefToken}
    (h : tok ∈ refsL (capture g roots)) : tokGen tok = g :=
  ((capture_inv g roots).tok_spec tok h).1

theorem capture_tok_valid {g : Nat} (hg : 1 ≤ g) {roots : AXList} {tok : RefToken}
    (h : tok ∈ refsL (capture g roots)) : ValidTok tok := by
  obtain ⟨hgen, hpos, hcase⟩ := (capture_inv g roots).tok_spec tok h
  cases tok with
  | top g0 o0 =>
    exact ⟨by rw [tokGen] at hgen; omega, by rw [tokElem] at hpos; omega⟩
  | framed k0 g0 o0 =>
    refine ⟨?_, by rw [tokGen] at hgen; omega, by rw [tokElem] at hpos; omega⟩
    rcases hcase with ⟨hf, _, _⟩ | ⟨k, hk, hlo, _⟩
    · rw [tokFrame] at hf; cases hf
    · rw [tokFrame] at hk
      have : k0 = k := by injection hk
      omega

theorem resolve_stale {st : StoreEntry} {tok : RefToken} (hv : ValidTok tok)
    (hne : tokGen tok ≠ st.gen) :
    resolve st (renderTok tok) = Except.error RErr.staleGeneration := by
  unfold resolve
  rw [parseTok_renderTok tok hv]
  simp only [if_neg hne]

theorem capture_resolve {g : Nat} {roots : AXList} {x : SNode} (hg : 1 ≤ g)
    (hx : x ∈ nodesL (capture g roots)) :
    resolve ⟨g, capture g roots⟩ (renderTok (refOf x)) = Except.ok x := by
  have href : refOf x ∈ refsL (capture g roots) := List.mem_map_of_mem refOf hx
  have hv := capture_tok_valid hg href
  have hnd : ((nodesL (capture g roots)).map refOf).Nodup := (capture_inv g roots).nodup
  have hfind : findL (refOf x) (capture g roots) = some x := findL_mem _ x hx hnd
  have hgen : tokGen (refOf x) = g := capture_tok_gen href
  unfold resolve
  rw [parseTok_renderTok _ hv]
  simp only
  rw [if_pos hgen]
  cases hfr : tokFrame (refOf x) with
  | none => simp [hfind]
  | some k =>
    have hkmem : k ∈ frameOrdsOf (capture g roots) :=
      List.mem_filterMap.mpr ⟨refOf x, href, hfr⟩
    simp [hkmem, hfind]

theorem commitN_gen (st : StoreEntry) (roots : AXList) :
    ∀ n : Nat, (commitN st roots n).gen = st.gen + n
  | 0 => rfl
  | Nat.succ m => by
    rw [commitN]
    show (commitN st roots m).gen + 1 = st.gen + (m + 1)
    rw [commitN_gen st roots m]
    omega

/-- C1: every successful re-capture of a page increases its generation by exactly 1,
and a reference token produced in a prior generation, resolved against the store
after one or more further re-captures, fails with `StaleGeneration` (and hence never
resolves to an element of the new generation). -/
theorem C1_recapture_increments_generation_and_stales_prior_tokens :
    (∀ (st : StoreEntry) (roots : AXList), (commit st roots).gen = st.gen + 1) ∧
    (∀ (st : StoreEntry) (roots rootsNew : AXList) (n : Nat) (tok : RefToken),
      1 ≤ n → tok ∈ refsL (commit st roots).tree →
      resolve (commitN (commit st roots) rootsNew n) (renderTok tok) =
        Except.error RErr.staleGeneration) := by
  refine ⟨fun st roots => rfl, fun st roots rootsNew n tok hn hmem => ?_⟩
  have htree : (commit st roots).tree = capture (st.gen + 1) roots := rfl
  rw [htree] at hmem
  have hv := capture_tok_valid (by omega) hmem
  have hgen := capture_tok_gen hmem
  apply resolve_stale hv
  rw [hgen, commitN_gen]
  show st.gen + 1 ≠ (commit st roots).gen + n
  rw [show (commit st roots).gen = st.gen + 1 from rfl]
  omega

/-- The page of the `test browser_click` test: a single `button "Submit"`. -/
def demoButton : AXList :=
  AXList.cons (AXNode.el "button" "Submit" false AXList.nil) AXList.nil

theorem C1_witness :
    resolve (commitN (commit ⟨0, SList.nil⟩ demoButton) demoButton 1)
        (renderTok (RefToken.top 1 3)) = Except.error RErr.staleGeneration :=
  C1_recapture_increments_generation_and_stales_prior_tokens.2
    ⟨0, SList.nil⟩ demoButton demoButton 1 (RefToken.top 1 3) (by decide) (by decide)

mutual
/-- (role, accessible name) pairs of all accessibility nodes of a capture input. -/
def axDataN : AXNode → List (String × String)
  | AXNode.el r nm _ ch => (r, nm) :: axDataL ch
  | AXNode.host r nm _ _ sub => (r, nm) :: axDataL sub
def axDataL : AXList → List (String × String)
  | AXList.nil => []
  | AXList.cons n l => axDataN n ++ axDataL l
end

theorem nodesL_consOpt (o : Option SNode) (t : SList) :
    nodesL (consOpt o t) =
      (match o with | none => [] | some y => nodesN y) ++ nodesL t := by
  cases o with
  | none => simp [consOpt]
  | some y => simp [consOpt, nodesL]

mutual
theorem allocNode_data (g : Nat) :
    ∀ (n : AXNode) (fo : Option Nat) (e f : Nat) (x y : SNode),
      (allocNode g fo n e f).out = some y → x ∈ nodesN y →
      (roleOf x, nameOf x) ∈ axDataN n
  | AXNode.el r nm sel ch, fo, e, f, x, y, hy, hx => by
    rw [allocNode_el] at hy
    dsimp only at hy
    obtain rfl : _ = y := Option.some_inj.mp hy
    rw [nodesN] at hx
    rw [axDataN]
    rcases List.mem_cons.mp hx with h | h
    · subst h
      simp [roleOf, nameOf]
    · exact List.mem_cons_of_mem _ (allocList_data g ch fo (e + 1) f x h)
  | AXNode.host r nm sel vis sub, fo, e, f, x, y, hy, hx => by
    rw [allocNode_host] at hy
    cases vis with
    | false =>
      rw [if_neg (by decide : ¬ (false = true))] at hy
      cases hy
    | true =>
      rw [if_pos rfl] at hy
      dsimp only at hy
      obtain rfl : _ = y := Option.some_inj.mp hy
      rw [nodesN] at hx
      rw [axDataN]
      rcases List.mem_cons.mp hx with h | h
      · subst h
        simp [roleOf, nameOf]
      · exact List.mem_cons_of_mem _ (allocList_data g sub (some f) elemBase (f + 1) x h)
theorem allocList_data (g : Nat) :
    ∀ (l : AXList) (fo : Option Nat) (e f : Nat) (x : SNode),
      x ∈ nodesL (allocList g fo l e f).out → (roleOf x, nameOf x) ∈ axDataL l
  | AXList.nil, fo, e, f, x, hx => by
    rw [allocList_nil] at hx
    dsimp only at hx
    rw [nodesL] at hx
    exact absurd hx (List.not_mem_nil x)
  | AXList.cons n l, fo, e, f, x, hx => by
    rw [allocList_cons] at hx
    dsimp only at hx
    rw [nodesL_consOpt] at hx
    rw [axDataL]
    rcases List.mem_append.mp hx with h | h
    · cases ho : (allocNode g fo n e f).out with
      | none => rw [ho] at h; exact absurd h (List.not_mem_nil x)
      | some y =>
        rw [ho] at h
        exact List.mem_append_left _ (allocNode_data g n fo e f x y ho h)
    · exact List.mem_append_right _
        (allocList_data g l fo (allocNode g fo n e f).nextE (allocNode g fo n e f).nextF x h)
end

/-- C2: for every capture and every reference token emitted in it, parsing the token
and resolving it immediately after the capture (before any further mutation)
succeeds and returns exactly the snapshot node carrying that token, whose role and
accessible name are those of the accessibility node that produced it. -/
theorem C2_resolve_immediately_after_capture (g : Nat) (roots : AXList) (x : SNode)
    (hg : 1 ≤ g) (hx : x ∈ nodesL (capture g roots)) :
    resolve ⟨g, capture g roots⟩ (renderTok (refOf x)) = Except.ok x ∧
    (roleOf x, nameOf x) ∈ axDataL roots :=
  ⟨capture_resolve hg hx, allocList_data g roots none elemBase 1 x hx⟩

/-- The stitched node the capture of `demoButton` produces for the button. -/
def demoButtonNode : SNode :=
  SNode.el "button" "Submit" false (RefToken.top 1 3) SList.nil

theorem C2_witness :
    resolve ⟨1, capture 1 demoButton⟩ (renderTok (refOf demoButtonNode)) =
        Except.ok demoButtonNode ∧
      (roleOf demoButtonNode, nameOf demoButtonNode) ∈ axDataL demoButton :=
  C2_resolve_immediately_after_capture 1 demoButton demoButtonNode (by decide) (by decide)

/-- Concatenation of accessibility node lists. -/
def appendA : AXList → AXList → AXList
  | AXList.nil, l2 => l2
  | AXList.cons n l, l2 => AXList.cons n (appendA l l2)

theorem alloc_skips_hidden_host (g : Nat) (fo : Option Nat) :
    ∀ (l1 : AXList) (l2 : AXList) (r nm : String) (sel : Bool) (sub : AXList)
      (e f : Nat),
      allocList g fo (appendA l1 (AXList.cons (AXNode.host r nm sel false sub) l2)) e f
        = allocList g fo (appendA l1 l2) e f
  | AXList.nil, l2, r, nm, sel, sub, e, f => by
    rw [appendA, appendA, allocList_cons, allocNode_host,
      if_neg (by decide : ¬ (false = true))]
    dsimp only
    rw [consOpt, List.nil_append]
  | AXList.cons n l1, l2, r, nm, sel, sub, e, f => by
    rw [appendA, appendA, allocList_cons, allocList_cons,
      alloc_skips_hidden_host g fo l1 l2 r nm sel sub]

/-- C3: a frame whose computed visibility is false contributes zero accessibility
nodes to the stitched tree and consumes zero frame ordinals: allocating a node list
containing a hidden frame-hosting element (wherever it occurs) is identical — same
stitched nodes, same assigned frame ordinals, same final counters — to allocating
the list with that element and everything nested inside it removed. -/
theorem C3_hidden_frame_contributes_nothing (g : Nat) (fo : Option Nat)
    (l1 l2 : AXList) (r nm : String) (sel : Bool) (sub : AXList) (e f : Nat) :
    allocList g fo (appendA l1 (AXList.cons (AXNode.host r nm sel false sub) l2)) e f
      = allocList g fo (appendA l1 l2) e f :=
  alloc_skips_hidden_host g fo l1 l2 r nm sel sub e f

/-- C4: within one generation, the frame ordinals assigned by the allocator form the
dense sequence 1, 2, … in discovery order (one shared strictly increasing counter
across all depths and siblings); the top-level frame receives no ordinal (0 is never
assigned and top-level tokens have no frame component); and a nested node's token
encodes exactly its own immediate frame's single ordinal, not a path. -/
theorem C4_frame_ordinals_dense_in_discovery_order (g : Nat) (roots : AXList) :
    (allocList g none roots elemBase 1).frames
        = List.range' 1 (allocList g none roots elemBase 1).frames.length ∧
    0 ∉ (allocList g none roots elemBase 1).frames ∧
    (∀ tok ∈ refsL (capture g roots),
      tokFrame tok = none ∨
        ∃ k ∈ (allocList g none roots elemBase 1).frames, tokFrame tok = some k) ∧
    (∀ tok ∈ refsL (capture g roots), ∀ k, tokFrame tok = some k →
      renderTok tok =
        'f' :: (natChars k ++ 's' :: (natChars (tokGen tok) ++ 'e' ::
          natChars (tokElem tok)))) := by
  obtain ⟨hme, hmf, hfr, hts, hnd⟩ := capture_inv g roots
  refine ⟨?_, ?_, ?_, ?_⟩
  · rw [hfr, List.length_range']
  · rw [hfr]
    intro h
    have := (List.mem_range'_1.mp h).1
    omega
  · intro tok htok
    obtain ⟨hgen, hpos, hcase⟩ := hts tok htok
    rcases hcase with ⟨hf, _, _⟩ | ⟨k, hk, hlo, hhi⟩
    · exact Or.inl hf
    · refine Or.inr ⟨k, ?_, hk⟩
      rw [hfr]
      exact List.mem_range'_1.mpr ⟨hlo, by omega⟩
  · intro tok htok k hk
    cases tok with
    | top g0 o0 => rw [tokFrame] at hk; cases hk
    | framed k0 g0 o0 =>
      rw [tokFrame] at hk
      obtain rfl : k0 = k := by injection hk
      rw [renderTok, tokGen, tokElem]

/-- The page of the `stitched aria frames` test: a heading, a visible iframe holding
a button and a `main` that hosts a nested iframe with a paragraph, and a
`display:none` iframe holding a heading. -/
def demoFrames : AXList :=
  AXList.cons (AXNode.el "heading" "Hello" false AXList.nil)
    (AXList.cons
      (AXNode.host "iframe" "" false true
        (AXList.cons (AXNode.el "button" "World" false AXList.nil)
          (AXList.cons
            (AXNode.el "main" "" false
              (AXList.cons
                (AXNode.host "iframe" "" false true
                  (AXList.cons (AXNode.el "paragraph" "Nested" false AXList.nil)
                    AXList.nil))
                AXList.nil))
            AXList.nil)))
      (AXList.cons
        (AXNode.host "iframe" "" false false
          (AXList.cons (AXNode.el "heading" "Should be invisible" false AXList.nil)
            AXList.nil))
        AXList.nil))

theorem C4_witness :
    (allocList 1 none demoFrames elemBase 1).frames
        = List.range' 1 (allocList 1 none demoFrames elemBase 1).frames.length ∧
    (tokFrame (RefToken.framed 2 1 3) = none ∨
      ∃ k ∈ (allocList 1 none demoFrames elemBase 1).frames,
        tokFrame (RefToken.framed 2 1 3) = some k) :=
  ⟨(C4_frame_ordinals_dense_in_discovery_order 1 demoFrames).1,
    (C4_frame_ordinals_dense_in_discovery_order 1 demoFrames).2.2.1
      (RefToken.framed 2 1 3) (by decide)⟩

mutual
/-- True when no node of the tree hosts a nested frame. -/
def noHostsN : AXNode → Bool
  | AXNode.el _ _ _ ch => noHostsL ch
  | AXNode.host _ _ _ _ _ => false
def noHostsL : AXList → Bool
  | AXList.nil => true
  | AXList.cons n l => noHostsN n && noHostsL l
end

mutual
theorem allocNode_noHosts (g : Nat) :
    ∀ (n : AXNode) (e f : Nat), noHostsN n = true →
      ∀ tok ∈ refsOpt (allocNode g none n e f).out, tokFrame tok = none
  | AXNode.el r nm sel ch, e, f, hn, tok, htok => by
    rw [allocNode_el] at htok
    dsimp only at htok
    rw [refsOpt_some_el] at htok
    rw [noHostsN] at hn
    rcases List.mem_cons.mp htok with h | h
    · subst h
      exact tokFrame_mkTok none g e
    · exact allocList_noHosts g ch (e + 1) f hn tok h
  | AXNode.host r nm sel vis sub, e, f, hn, tok, htok => by
    rw [noHostsN] at hn
    cases hn
theorem allocList_noHosts (g : Nat) :
    ∀ (l : AXList) (e f : Nat), noHostsL l = true →
      ∀ tok ∈ refsL (allocList g none l e f).out, tokFrame tok = none
  | AXList.nil, e, f, _, tok, htok => by
    rw [allocList_nil] at htok
    dsimp only at htok
    simp [refsL, nodesL] at htok
  | AXList.cons n l, e, f, hn, tok, htok => by
    rw [noHostsL, Bool.and_eq_true] at hn
    rw [allocList_cons] at htok
    dsimp only at htok
    rw [refsL_consOpt] at htok
    rcases List.mem_append.mp htok with h | h
    · exact allocNode_noHosts g n e f hn.1 tok h
    · exact allocList_noHosts g l _ _ hn.2 tok h
end

/-- C5: every (valid) reference token is uniquely decodable into its
(frame-ordinal-or-top-level, generation, element-ordinal) decomposition — parsing
the rendered token recovers exactly the decomposition; for a page with no nested
frames every token produced by a capture has the top-level form (no frame-ordinal
component); and tokens from different generations are never textually equal. -/
theorem C5_tokens_uniquely_decodable :
    (∀ t : RefToken, ValidTok t → parseTok (renderTok t) = some t) ∧
    (∀ (g : Nat) (roots : AXList), noHostsL roots = true →
      ∀ tok ∈ refsL (capture g roots), tokFrame tok = none) ∧
    (∀ t1 t2 : RefToken, ValidTok t1 → ValidTok t2 → tokGen t1 ≠ tokGen t2 →
      renderTok t1 ≠ renderTok t2) :=
  ⟨fun t h => parseTok_renderTok t h,
   fun g roots h tok htok => allocList_noHosts g roots elemBase 1 h tok htok,
   fun _ _ h1 h2 hne he => hne (congrArg tokGen (renderTok_inj h1 h2 he))⟩

theorem C5_witness :
    parseTok (renderTok (RefToken.framed 2 1 3)) = some (RefToken.framed 2 1 3) ∧
    tokFrame (RefToken.top 1 3) = none ∧
    renderTok (RefToken.top 1 3) ≠ renderTok (RefToken.top 2 3) :=
  ⟨C5_tokens_uniquely_decodable.1 (RefToken.framed 2 1 3) (by decide),
   C5_tokens_uniquely_decodable.2.1 1 demoButton (by decide) (RefToken.top 1 3)
     (by decide),
   C5_tokens_uniquely_decodable.2.2 (RefToken.top 1 3) (RefToken.top 2 3)
     (by decide) (by decide) (by decide)⟩

/-- Four-space indentation, one level per tree depth, as in the test output. -/
def indentStr (d : Nat) : String := String.join (List.replicate d "    ")

/-- The state-flag annotation of a node (the `[selected]` marker of §4.3). -/
def flagsOf (sel : Bool) : String := if sel then " [selected]" else ""

/-- The fixed trailing reference annotation of §4.3. -/
def refAnno (t : RefToken) : String := " [ref=" ++ String.mk (renderTok t) ++ "]"

mutual
/-- Modelled from the spec: the Snapshot Serializer (§4.3) — not under `src/`.  An
indented, line-oriented outline: one line per node stating role, quoted accessible
name when nonempty, state flags, and the reference token in a fixed trailing
annotation; pure text nodes render as a bare text leaf; children one level deeper.
It is a function of the stitched tree alone — no timestamps and no other input. -/
def renderN (d : Nat) : SNode → String
  | SNode.el r nm sel t ch =>
    if r = "text" then indentStr d ++ "- text: " ++ nm ++ "\x0a"
    else
      indentStr d ++ "- " ++ r ++
        (if nm = "" then "" else " \x22" ++ nm ++ "\x22") ++
        flagsOf sel ++ refAnno t ++
        (match ch with
          | SList.nil => "\x0a"
          | SList.cons _ _ => ":\x0a") ++ renderL (d + 1) ch
def renderL (d : Nat) : SList → String
  | SList.nil => ""
  | SList.cons n l => renderN d n ++ renderL d l
end

/-- Modelled from the spec: render a stitched tree to its stable text form. -/
def render (t : SList) : String := renderL 0 t

/-- C8: the Snapshot Serializer is a deterministic pure function of the stitched
tree: it takes no clock, counter, or other input, so rendering the same tree any
number of times yields byte-identical text. -/
theorem C8_serializer_deterministic (t1 t2 : SList) (h : t1 = t2) :
    render t1 = render t2 :=
  congrArg render h

theorem C8_witness :
    render (capture 1 demoFrames) = render (capture 1 demoFrames) :=
  C8_serializer_deterministic (capture 1 demoFrames) (capture 1 demoFrames) rfl

/-- One option element of a select control: value, label, selected state. -/
structure OptionEl where
  value : String
  label : String
  selected : Bool
deriving DecidableEq

/-- Modelled from the spec: the browser's select-option semantics as driven by the
`browser_select_option` handler (`src/tools/snapshot.ts` passes the `values` array
verbatim to `locator.selectOption(values)`; the selection state itself lives in the
browser): after selecting `values`, an option is selected iff its value is among
the chosen values. -/
def applySelect (values : List String) (opts : List OptionEl) : List OptionEl :=
  opts.map fun o => ⟨o.value, o.label, decide (o.value ∈ values)⟩

/-- The accessibility nodes a select control's options expose on re-capture. -/
def optionsAX : List OptionEl → AXList
  | [] => AXList.nil
  | o :: l =>
    AXList.cons (AXNode.el "option" o.label o.selected AXList.nil) (optionsAX l)

/-- (role, name, selected) data of a flat stitched node list. -/
def dataL : SList → List (String × String × Bool)
  | SList.nil => []
  | SList.cons n l => (roleOf n, nameOf n, selOf n) :: dataL l

theorem alloc_options_data (g : Nat) (fo : Option Nat) :
    ∀ (l : List OptionEl) (e f : Nat),
      dataL (allocList g fo (optionsAX l) e f).out
        = l.map (fun o => ("option", o.label, o.selected))
  | [], e, f => by
    rw [optionsAX, allocList_nil]
    dsimp only
    rw [dataL]
    simp
  | o :: l, e, f => by
    rw [optionsAX, allocList_cons, allocNode_el, allocList_nil]
    dsimp only
    rw [consOpt, dataL]
    rw [alloc_options_data g fo l (e + 1) f]
    simp [roleOf, nameOf, selOf]

theorem countP_single_eq_count (v : String) :
    ∀ l : List OptionEl,
      l.countP (fun o => decide (o.value ∈ ([v] : List String)))
        = (l.map OptionEl.value).count v
  | [] => rfl
  | o :: l => by
    rw [List.countP_cons, List.map_cons, List.count_cons,
      countP_single_eq_count v l]
    by_cases h : o.value = v
    · simp [h]
    · simp [h, List.mem_singleton]

theorem countP_pair_eq_counts (v1 v2 : String) (hne : v1 ≠ v2) :
    ∀ l : List OptionEl,
      l.countP (fun o => decide (o.value ∈ ([v1, v2] : List String)))
        = (l.map OptionEl.value).count v1 + (l.map OptionEl.value).count v2
  | [] => rfl
  | o :: l => by
    have hne2 : v2 ≠ v1 := Ne.symm hne
    rw [List.countP_cons, List.map_cons, List.count_cons, List.count_cons,
      countP_pair_eq_counts v1 v2 hne l]
    by_cases h1 : o.value = v1
    · have h2 : o.value ≠ v2 := fun h => hne (h1.symm.trans h)
      simp [h1, h2, hne, hne2]
      omega
    · by_cases h2 : o.value = v2
      · simp [h1, h2, hne, hne2]
        omega
      · simp [h1, h2]

/-- C7: selecting one value in a single-select control yields a post-action snapshot
of the control in which exactly the chosen option carries the selected flag and no
other does; selecting two values in a multi-select marks exactly those two.  The
re-captured option subtree's (role, name, selected) data marks an option iff its
value is among the chosen values, and with distinct option values the number of
selected options is exactly 1 (single) resp. 2 (multi); the serializer prints the
`[selected]` flag exactly on flagged nodes. -/
theorem C7_select_option_marks_exactly_chosen (g : Nat) (fo : Option Nat)
    (e f : Nat) (opts : List OptionEl) (v v1 v2 : String)
    (hnd : (opts.map OptionEl.value).Nodup) (hv : v ∈ opts.map OptionEl.value)
    (hv1 : v1 ∈ opts.map OptionEl.value) (hv2 : v2 ∈ opts.map OptionEl.value)
    (hne : v1 ≠ v2) :
    dataL (allocList g fo (optionsAX (applySelect [v] opts)) e f).out
        = opts.map (fun o => ("option", o.label, decide (o.value = v))) ∧
    (applySelect [v] opts).countP (fun o => o.selected) = 1 ∧
    dataL (allocList g fo (optionsAX (applySelect [v1, v2] opts)) e f).out
        = opts.map (fun o => ("option", o.label,
            decide (o.value = v1) || decide (o.value = v2))) ∧
    (applySelect [v1, v2] opts).countP (fun o => o.selected) = 2 ∧
    flagsOf true = " [selected]" ∧ flagsOf false = "" := by
  refine ⟨?_, ?_, ?_, ?_, rfl, rfl⟩
  · rw [alloc_options_data, applySelect, List.map_map]
    apply List.map_congr_left
    intro o ho
    simp [List.mem_singleton]
  · rw [applySelect, List.countP_map]
    have h := countP_single_eq_count v opts
    calc opts.countP ((fun o => o.selected) ∘ fun o =>
          (⟨o.value, o.label, decide (o.value ∈ ([v] : List String))⟩ : OptionEl))
        = opts.countP (fun o => decide (o.value ∈ ([v] : List String))) := rfl
      _ = (opts.map OptionEl.value).count v := h
      _ = 1 := List.count_eq_one_of_mem hnd hv
  · rw [alloc_options_data, applySelect, List.map_map]
    apply List.map_congr_left
    intro o ho
    by_cases h1 : o.value = v1
    · simp [h1]
    · by_cases h2 : o.value = v2
      · simp [h1, h2]
      · simp [h1, h2]
  · rw [applySelect, List.countP_map]
    have h := countP_pair_eq_counts v1 v2 hne opts
    calc opts.countP ((fun o => o.selected) ∘ fun o =>
          (⟨o.value, o.label, decide (o.value ∈ ([v1, v2] : List String))⟩ : OptionEl))
        = opts.countP (fun o => decide (o.value ∈ ([v1, v2] : List String))) := rfl
      _ = (opts.map OptionEl.value).count v1 + (opts.map OptionEl.value).count v2 := h
      _ = 2 := by
          rw [List.count_eq_one_of_mem hnd hv1, List.count_eq_one_of_mem hnd hv2]

/-- The options of the `multiple option` test: Foo, Bar, Baz. -/
def demoOpts : List OptionEl :=
  [⟨"foo", "Foo", false⟩, ⟨"bar", "Bar", false⟩, ⟨"baz", "Baz", false⟩]

theorem C7_witness :
    (applySelect ["bar"] demoOpts).countP (fun o => o.selected) = 1 ∧
    (applySelect ["bar", "baz"] demoOpts).countP (fun o => o.selected) = 2 :=
  ⟨(C7_select_option_marks_exactly_chosen 2 none 4 1 demoOpts "bar" "bar" "baz"
      (by decide) (by decide) (by decide) (by decide) (by decide)).2.1,
   (C7_select_option_marks_exactly_chosen 2 none 4 1 demoOpts "bar" "bar" "baz"
      (by decide) (by decide) (by decide) (by decide) (by decide)).2.2.2.1⟩

/-- How a tool handler interprets the `ref` parameter that addresses an element. -/
inductive RefInterp where
  | viaRefLocator
  | viaSelectorEngine
deriving DecidableEq, Repr

/-- The element-targeting tool handlers under `src/` and how each interprets its
`ref` parameter, read off the source: `browser_click`, `browser_drag`,
`browser_hover`, `browser_type`, `browser_select_option` and the
`browser_take_html_snippet` variant in `src/tools/snapshot.ts` call
`context.refLocator(ref)`; `browser_highlight` (unnamed tool file) calls
`tab.snapshotOrDie().refLocator(ref)`; the `browser_take_html_snippet` variant in
the unnamed htmlSnippet tool file passes the ref to `page.$(params.ref)` — the
page's CSS/XPath/text selector engine. -/
def elementToolRefInterp : List (String × RefInterp) :=
  [("browser_click", RefInterp.viaRefLocator),
   ("browser_drag", RefInterp.viaRefLocator),
   ("browser_hover", RefInterp.viaRefLocator),
   ("browser_type", RefInterp.viaRefLocator),
   ("browser_select_option", RefInterp.viaRefLocator),
   ("browser_highlight", RefInterp.viaRefLocator),
   ("browser_take_html_snippet - snapshot.ts variant", RefInterp.viaRefLocator),
   ("browser_take_html_snippet - htmlSnippet tool variant",
     RefInterp.viaSelectorEngine)]

/-- C6 (code bug evidence): the claim that every element-targeting command resolves
its `ref` purely via the Reference Resolver and never as a CSS selector fails on the
source: the `browser_take_html_snippet` handler in the unnamed htmlSnippet tool file
passes the snapshot reference to `page.$()`, which interprets it as a CSS/XPath/text
selector, against the tool's own schema text ("Exact target element reference from
the page snapshot") and its own comment that the original implementation used a
refLocator. -/
theorem C6_html_snippet_interprets_ref_as_selector :
    ("browser_take_html_snippet - htmlSnippet tool variant",
        RefInterp.viaSelectorEngine) ∈ elementToolRefInterp ∧
    RefInterp.viaSelectorEngine ≠ RefInterp.viaRefLocator ∧
    ¬ (∀ p ∈ elementToolRefInterp, p.2 = RefInterp.viaRefLocator) := by
  decide

/-- The payload a tool handler hands back to the command layer: optional override
result text, generated code lines, and the capture/wait flags — the shape of the
objects returned by the handlers in `src/`. -/
structure ToolReturn where
  resultText : Option String
  code : List String
  captureSnapshot : Bool
  waitForNetwork : Bool
deriving DecidableEq, Repr

/-- Browser-side state the navigate handler can affect: the current URL and the
cookies added to the browser context. -/
structure BrowserState where
  url : Option String
  cookies : List String
deriving DecidableEq, Repr

/-- Outcome of the fallible cookie-loading step of `browser_navigate`
(`fs.readFile`, `JSON.parse`, `context.addCookies`) for a given path. -/
inductive CookieLoadOutcome where
  | ok (cookies : String)
  | fail (err : String)
deriving DecidableEq, Repr

/-- The `browser_navigate` handler of the unnamed navigate tool file: when a
`cookiesPath` is supplied the cookie loading runs inside a try/catch whose catch
returns a failure-text result with empty code before the navigation step; otherwise
the handler adds the cookies (if any) and then navigates to the URL.  The generated
code lines are abbreviated to their leading comment markers. -/
def navigateHandle (captureSnapshot : Bool) (url : String)
    (cookiesPath : Option String) (loadCookies : String → CookieLoadOutcome)
    (st : BrowserState) : ToolReturn × BrowserState :=
  match cookiesPath with
  | some p =>
    match loadCookies p with
    | CookieLoadOutcome.fail err =>
      (⟨some ("Failed to load cookies from " ++ p ++ ": " ++ err), [],
        captureSnapshot, false⟩, st)
    | CookieLoadOutcome.ok cks =>
      (⟨none, ["// Load cookies from " ++ p, "// Navigate to " ++ url],
        captureSnapshot, false⟩,
        ⟨some url, st.cookies ++ [cks]⟩)
  | none =>
    (⟨none, ["// Navigate to " ++ url], captureSnapshot, false⟩,
      ⟨some url, st.cookies⟩)

/-- Outcome of the fallible body of `browser_save_cookies` (reading the context's
cookies and writing the file): the resolved path on success, the thrown error
otherwise. -/
inductive SaveOutcome where
  | ok (resolvedPath : String)
  | fail (err : String)
deriving DecidableEq, Repr

/-- The `browser_save_cookies` handler (`src/tools/cookies.ts`): its entire body
runs in a try/catch and both branches return a resultOverride text — success or
failure — so no outcome escapes as a fault. -/
def saveCookiesHandle (captureSnapshot : Bool) (o : SaveOutcome) : ToolReturn :=
  match o with
  | SaveOutcome.ok p =>
    ⟨some ("Cookies saved to " ++ p), [], captureSnapshot, false⟩
  | SaveOutcome.fail err =>
    ⟨some ("Failed to save cookies: " ++ err), [], captureSnapshot, false⟩

/-- Modelled from the spec: the capture failure of §4.1/§7 — `DriverUnavailable`,
raised when the underlying page or frame detached or navigated away mid-capture;
the payload carries the propagated driver error. -/
inductive CaptureFail where
  | driverUnavailable (detail : String)
deriving DecidableEq, Repr

/-- Modelled from the spec: one full-page capture attempt (§4.1, §5): the
browser-side frame walk either yields the page's frame tree or fails with
`DriverUnavailable`; if any frame walk fails, the whole capture fails atomically
with that typed outcome, otherwise the stitched tree is allocated under the given
generation. -/
def tryCapture (g : Nat) (walk : Except CaptureFail AXList) :
    Except CaptureFail SList :=
  match walk with
  | Except.error e => Except.error e
  | Except.ok roots => Except.ok (capture g roots)

/-- Modelled from the spec: committing a capture attempt (§4.4, §5): on success the
store advances one generation to the fresh tree; on capture failure nothing is
committed — the store entry is unchanged and the typed failure value is returned to
the caller. -/
def tryCommit (st : StoreEntry) (walk : Except CaptureFail AXList) :
    Except CaptureFail StoreEntry × StoreEntry :=
  match tryCapture (st.gen + 1) walk with
  | Except.error e => (Except.error e, st)
  | Except.ok tree => (Except.ok ⟨st.gen + 1, tree⟩, ⟨st.gen + 1, tree⟩)

/-- Modelled from the spec: the full §7 failure taxonomy as the command layer sees
it: capture failures (`DriverUnavailable`) and resolution failures (§4.5). -/
inductive Fault where
  | capture (e : CaptureFail)
  | resolution (e : RErr)
deriving DecidableEq, Repr

/-- Modelled from the spec: the user-facing text the command layer produces for
each typed failure (§7) — the command layer itself is not under `src/`. -/
def faultText : Fault → String
  | Fault.capture (CaptureFail.driverUnavailable detail) =>
    "Frame detached or navigated during capture, retry once: " ++ detail
  | Fault.resolution RErr.staleGeneration =>
    "Stale reference: the snapshot has been re-captured, take a new snapshot"
  | Fault.resolution RErr.unknownFrame =>
    "Unknown frame: not present in the current snapshot"
  | Fault.resolution RErr.danglingElement =>
    "Element no longer present in the current page"
  | Fault.resolution RErr.malformedToken => "Malformed element reference"

/-- Modelled from the spec: the command layer (§7) turns every typed failure
outcome — capture or resolution — into user-facing text and never rethrows. -/
def commandLayer (r : Except Fault String) : String :=
  match r with
  | Except.ok t => t
  | Except.error fe => faultText fe

/-- C9: all capture and resolution failures are returned as typed outcomes and
surfaced as result text, never thrown as uncaught faults that terminate the
session: a capture attempt is total into a typed result (`ok` or the typed
`DriverUnavailable` value); a failed capture commits nothing — the typed failure is
returned and the store entry survives unchanged; the resolver is total into a typed
result; the command layer maps every typed failure, capture or resolution, to
user-facing text; and the fallible `src/` handlers (`browser_save_cookies`, the
cookie branch of `browser_navigate`) turn every failure of their fallible steps
into a failure-text result. -/
theorem C9_failures_are_typed_outcomes_never_thrown :
    (∀ (g : Nat) (walk : Except CaptureFail AXList),
      (∃ t, tryCapture g walk = Except.ok t) ∨
        (∃ e, tryCapture g walk = Except.error e)) ∧
    (∀ (st : StoreEntry) (walk : Except CaptureFail AXList) (e : CaptureFail),
      walk = Except.error e → tryCommit st walk = (Except.error e, st)) ∧
    (∀ (st : StoreEntry) (s : List Char),
      (∃ n, resolve st s = Except.ok n) ∨ (∃ fe, resolve st s = Except.error fe)) ∧
    (∀ fe : Fault, commandLayer (Except.error fe) = faultText fe) ∧
    (∀ (cs : Bool) (o : SaveOutcome),
      ∃ t, (saveCookiesHandle cs o).resultText = some t) ∧
    (∀ (cs : Bool) (url p err : String) (lc : String → CookieLoadOutcome)
      (st : BrowserState), lc p = CookieLoadOutcome.fail err →
      ∃ t, ((navigateHandle cs url (some p) lc st).1).resultText = some t) := by
  refine ⟨?_, ?_, ?_, fun fe => rfl, ?_, ?_⟩
  · intro g walk
    cases walk with
    | ok roots => exact Or.inl ⟨capture g roots, rfl⟩
    | error e => exact Or.inr ⟨e, rfl⟩
  · intro st walk e h
    subst h
    rfl
  · intro st s
    cases h : resolve st s with
    | ok n => exact Or.inl ⟨n, rfl⟩
    | error fe => exact Or.inr ⟨fe, rfl⟩
  · intro cs o
    cases o with
    | ok p => exact ⟨_, rfl⟩
    | fail err => exact ⟨_, rfl⟩
  · intro cs url p err lc st h
    refine ⟨"Failed to load cookies from " ++ p ++ ": " ++ err, ?_⟩
    simp [navigateHandle, h]

theorem C9_witness :
    tryCommit ⟨1, capture 1 demoButton⟩
        (Except.error (CaptureFail.driverUnavailable "frame detached")) =
      (Except.error (CaptureFail.driverUnavailable "frame detached"),
        ⟨1, capture 1 demoButton⟩) ∧
    (∃ t, ((navigateHandle true "https://example.com" (some "cookies.json")
        (fun _ => CookieLoadOutcome.fail "EACCES") ⟨none, []⟩).1).resultText
      = some t) :=
  ⟨C9_failures_are_typed_outcomes_never_thrown.2.1 ⟨1, capture 1 demoButton⟩
      (Except.error (CaptureFail.driverUnavailable "frame detached"))
      (CaptureFail.driverUnavailable "frame detached") rfl,
    C9_failures_are_typed_outcomes_never_thrown.2.2.2.2.2 true
      "https://example.com" "cookies.json" "EACCES"
      (fun _ => CookieLoadOutcome.fail "EACCES") ⟨none, []⟩ rfl⟩

/-- C10: for `browser_navigate` with a `cookiesPath`, a failure while reading,
parsing, or adding the cookies makes the handler return the failure-text result
(with empty generated code) and skip the navigation entirely: the browser state —
current URL and cookies — is unchanged, the error being returned strictly before
the goto step. -/
theorem C10_cookie_failure_returns_before_navigation (cs : Bool) (url p err : String)
    (loadCookies : String → CookieLoadOutcome) (st : BrowserState)
    (h : loadCookies p = CookieLoadOutcome.fail err) :
    navigateHandle cs url (some p) loadCookies st =
      (⟨some ("Failed to load cookies from " ++ p ++ ": " ++ err), [], cs, false⟩,
        st) := by
  simp [navigateHandle, h]

theorem C10_witness :
    navigateHandle true "https://example.com" (some "/tmp/cookies.json")
        (fun _ => CookieLoadOutcome.fail "ENOENT") ⟨none, []⟩ =
      (⟨some ("Failed to load cookies from /tmp/cookies.json: ENOENT"), [], true,
        false⟩, ⟨none, []⟩) := by
  have h := C10_cookie_failure_returns_before_navigation true "https://example.com"
    "/tmp/cookies.json" "ENOENT" (fun _ => CookieLoadOutcome.fail "ENOENT")
    ⟨none, []⟩ rfl
  rw [h]
  rfl
